import Mathlib

/-!
Verification of the relay-configuration core of screwyprof/mev-boost.

The development shallowly embeds two parts of the repository:

* `src/cli/types.go`: the command-line flag accumulators `relayList` and
  `relayMonitorList` with their `Set` / `Contains` operations.  The entry
  parsers (`relay.NewRelayEntry`, `url.Parse`) live outside the given
  sources, so both are abstracted as a `parse` parameter returning an
  entry or an error.

* the `rcm` Configurator with its Registry, Registry Builder, and relay
  Set.  Only the test file of that package is among the given sources, so
  those definitions are modelled from the specification text.

Machine state is passed explicitly; fallible operations return an
`Except` or pair the new state with an `Option` error, mirroring Go's
`(result, err)` convention where the receiver is mutated only on success.
-/

namespace MevBoost

/-- Modelled from the spec: a relay Entry (`relay.Entry`, not under the
given sources) is an immutable value identified by a canonical URL
string; equality and deduplication are defined by this canonical string,
independent of any other decoration the original representation carries.
`canonical` is the canonical URL, `decoration` stands for the rest of the
original representation. -/
structure Entry where
  canonical : String
  decoration : String
deriving Repr, DecidableEq

/-- Modelled from the spec: the canonical string representation of an
entry (Go `Entry.String()`), the deduplication key. -/
def Entry.str (e : Entry) : String := e.canonical

/-- A parser for relay entries (`relay.NewRelayEntry` is not under the
given sources): it yields an entry or a parse error. -/
abbrev EntryParser : Type := String → Except String Entry

/-- The errors `relayList.Set` / `relayMonitorList.Set` can return:
either the error of the underlying parser, or the distinct
`errDuplicateEntry` sentinel from `src/cli/types.go`. -/
inductive SetError where
  | parseError (msg : String)
  | duplicateEntry
deriving Repr, DecidableEq

/-- `relayList` from `src/cli/types.go`: a slice of relay entries. -/
abbrev relayList : Type := List Entry

/-- `relayList.Contains` from `src/cli/types.go`: membership by equality
of the canonical string representations. -/
def relayList.Contains (r : relayList) (e : Entry) : Bool :=
  r.any (fun entry => e.str == entry.str)

/-- `relayList.Set` from `src/cli/types.go`: parse the value; on parse
failure return the parse error, on a duplicate return the
duplicate-entry error, otherwise append the parsed entry.  The returned
list is the receiver's state after the call: unchanged unless the entry
was appended. -/
def relayList.Set (parse : EntryParser) (r : relayList) (v : String) :
    relayList × Option SetError :=
  match parse v with
  | .error msg => (r, some (.parseError msg))
  | .ok entry =>
    if r.Contains entry then (r, some .duplicateEntry)
    else (r ++ [entry], none)

/-- Folding a whole sequence of `Set` calls over a `relayList`,
keeping whatever state each call leaves behind. -/
def relayList.SetAll (parse : EntryParser) (r : relayList) :
    List String → relayList
  | [] => r
  | v :: vs => relayList.SetAll parse (relayList.Set parse r v).1 vs

/-- Modelled from the spec: a parsed URL (`*url.URL`, standard library,
not under the given sources), reduced to its string representation
(`URL.String()`), which is all `relayMonitorList` consults. -/
structure Url where
  urlString : String
deriving Repr, DecidableEq

/-- A parser for monitor URLs (`url.Parse` is not under the given
sources): it yields a URL or a parse error. -/
abbrev UrlParser : Type := String → Except String Url

/-- `relayMonitorList` from `src/cli/types.go`: a slice of URLs. -/
abbrev relayMonitorList : Type := List Url

/-- `relayMonitorList.Contains` from `src/cli/types.go`: membership by
equality of the URL string representations. -/
def relayMonitorList.Contains (rm : relayMonitorList) (u : Url) : Bool :=
  rm.any (fun entry => u.urlString == entry.urlString)

/-- `relayMonitorList.Set` from `src/cli/types.go`: parse the value; on
parse failure return the parse error, on a duplicate return the
duplicate-entry error, otherwise append the parsed URL. -/
def relayMonitorList.Set (parse : UrlParser) (rm : relayMonitorList) (v : String) :
    relayMonitorList × Option SetError :=
  match parse v with
  | .error msg => (rm, some (.parseError msg))
  | .ok u =>
    if rm.Contains u then (rm, some .duplicateEntry)
    else (rm ++ [u], none)

/-- Folding a whole sequence of `Set` calls over a `relayMonitorList`. -/
def relayMonitorList.SetAll (parse : UrlParser) (rm : relayMonitorList) :
    List String → relayMonitorList
  | [] => rm
  | v :: vs => relayMonitorList.SetAll parse (relayMonitorList.Set parse rm v).1 vs

/-- Modelled from the spec: a relay Set (`relay.Set`, not under the given
sources) is a collection of entries with uniqueness enforced by the
canonical URL.  It is realised as the list of members in first-seen
order; order carries no semantic meaning. -/
abbrev RelaySet : Type := List Entry

/-- Modelled from the spec: the canonical URLs of a relay Set's members,
in member order. -/
def RelaySet.keys (s : RelaySet) : List String := s.map Entry.canonical

/-- Modelled from the spec: relay Set membership by canonical URL. -/
def RelaySet.ContainsKey (s : RelaySet) (e : Entry) : Bool :=
  s.any (fun x => x.canonical == e.canonical)

/-- Modelled from the spec: adding an entry to a relay Set keeps the
first occurrence encountered when duplicates collide. -/
def RelaySet.Add (s : RelaySet) (e : Entry) : RelaySet :=
  if s.ContainsKey e then s else s ++ [e]

/-- Modelled from the spec: `Union` merges two relay Sets by canonical
URL, keeping the first occurrence encountered. -/
def RelaySet.Union (a b : RelaySet) : RelaySet := b.foldl RelaySet.Add a

/-- Modelled from the spec: building a relay Set from endpoint strings,
one `Add` per string, rejecting any malformed endpoint string.
`acc` is the set built so far. -/
def RelaySet.FromStringsAux (parse : EntryParser) (acc : RelaySet) :
    List String → Except String RelaySet
  | [] => .ok acc
  | v :: vs =>
    match parse v with
    | .error msg => .error msg
    | .ok e => RelaySet.FromStringsAux parse (acc.Add e) vs

/-- Modelled from the spec: `New(endpoint strings) -> Set | error`. -/
def RelaySet.FromStrings (parse : EntryParser) (vs : List String) :
    Except String RelaySet :=
  RelaySet.FromStringsAux parse [] vs

/-- Modelled from the spec: a Provider Response is a proposer to
endpoint-strings mapping plus a default endpoint-string list.  The Go
mapping is a `map`; it is realised as an association list whose keys are
proposer public-key strings. -/
structure ProviderResponse where
  proposerRelays : List (String × List String)
  defaultRelays : List String
deriving Repr, DecidableEq

/-- Modelled from the spec: the result of one synchronous provider
fetch — the raw response or an error. -/
abbrev FetchResult : Type := Except String ProviderResponse

/-- Modelled from the spec: a Registry is an immutable snapshot holding
a mapping from proposer public key to that proposer's relay Set plus one
Default Relay Set. -/
structure Registry where
  proposerRelays : List (String × RelaySet)
  defaultRelays : RelaySet
deriving Repr, DecidableEq

/-- Modelled from the spec: `RelaysForValidator(pk)` returns the
proposer-specific set if present, else the Default Relay Set. -/
def Registry.RelaysForValidator (reg : Registry) (pk : String) : RelaySet :=
  match reg.proposerRelays.find? (fun p => p.1 == pk) with
  | some p => p.2
  | none => reg.defaultRelays

/-- Modelled from the spec: `AllRelays()` is the deduplicated union of
the Default Relay Set and every proposer relay Set. -/
def Registry.AllRelays (reg : Registry) : RelaySet :=
  reg.proposerRelays.foldl (fun acc p => acc.Union p.2) reg.defaultRelays

/-- Modelled from the spec: the Registry Builder errors — the provider
call itself failed, or an endpoint string failed to parse as a canonical
relay identity.  Either way the underlying cause is propagated. -/
inductive BuildError where
  | providerFailure (cause : String)
  | malformedEndpoint (cause : String)
deriving Repr, DecidableEq

/-- Modelled from the spec: build the per-proposer relay Sets of a
Registry, one Set per proposer entry, failing on any malformed endpoint
string. -/
def BuildProposerSets (parse : EntryParser) :
    List (String × List String) → Except BuildError (List (String × RelaySet))
  | [] => .ok []
  | p :: ps =>
    match RelaySet.FromStrings parse p.2 with
    | .error msg => .error (.malformedEndpoint msg)
    | .ok s =>
      match BuildProposerSets parse ps with
      | .error e => .error e
      | .ok rest => .ok ((p.1, s) :: rest)

/-- Modelled from the spec: `Build(providerResponse) -> Registry | error`
(the Registry Builder).  Fails if the provider call failed or any
endpoint string fails to parse; otherwise produces a fully formed
Registry. -/
def BuildRegistry (parse : EntryParser) (fetched : FetchResult) :
    Except BuildError Registry :=
  match fetched with
  | .error msg => .error (.providerFailure msg)
  | .ok resp =>
    match RelaySet.FromStrings parse resp.defaultRelays with
    | .error msg => .error (.malformedEndpoint msg)
    | .ok defaults =>
      match BuildProposerSets parse resp.proposerRelays with
      | .error e => .error e
      | .ok proposers => .ok { proposerRelays := proposers, defaultRelays := defaults }

/-- Modelled from the spec: the Configurator wraps every build failure
behind one stable, identity-testable sentinel
(`rcm.ErrCannotFetchRelayConfig`) wrapping the underlying cause. -/
inductive SyncError where
  | cannotFetchRelayConfig (cause : BuildError)
deriving Repr, DecidableEq

/-- Modelled from the spec: whether an error matches the stable
fetch-failure sentinel (the analogue of
`errors.Is(err, rcm.ErrCannotFetchRelayConfig)`). -/
def SyncError.IsCannotFetchRelayConfig : SyncError → Bool
  | .cannotFetchRelayConfig _ => true

/-- Modelled from the spec: the Configurator is the only mutable entity;
it holds a reference to the currently installed Registry. -/
structure Configurator where
  registry : Registry
deriving Repr, DecidableEq

/-- Modelled from the spec: `RelaysForValidator(pk)` reads the currently
installed Registry, never invoking the provider. -/
def Configurator.RelaysForValidator (c : Configurator) (pk : String) : RelaySet :=
  c.registry.RelaysForValidator pk

/-- Modelled from the spec: `AllRelays()` reads the currently installed
Registry, never invoking the provider. -/
def Configurator.AllRelays (c : Configurator) : RelaySet :=
  c.registry.AllRelays

/-- Modelled from the spec: `Sync() -> error` performs one build
attempt.  On success it atomically replaces the installed Registry with
the new one in full; on failure it leaves the installed Registry
untouched and returns the wrapped error, without retrying internally.
`fetched` is the outcome of this attempt's provider fetch. -/
def Configurator.SyncConfig (parse : EntryParser) (c : Configurator)
    (fetched : FetchResult) : Configurator × Option SyncError :=
  match BuildRegistry parse fetched with
  | .error e => (c, some (.cannotFetchRelayConfig e))
  | .ok reg => ({ registry := reg }, none)

/-- Modelled from the spec: the outcome of constructing a Configurator —
an immediate halt (panic) on a missing dependency, a wrapped
fetch-failure error, or a ready Configurator. -/
inductive ConstructOutcome where
  | halt
  | fetchError (e : SyncError)
  | ready (c : Configurator)
deriving Repr, DecidableEq

/-- Modelled from the spec: `NewDefault(registryBuilderFactory)` halts
the process immediately if the factory is absent (nil); otherwise it
performs exactly one synchronous build, installing the Registry on
success and returning the wrapped fetch-failure error otherwise.  The
factory is the zero-argument build-one-Registry-now operation; the
second component counts how many provider fetches were attempted. -/
def NewDefault (parse : EntryParser)
    (registryBuilderFactory : Option (Unit → FetchResult)) :
    ConstructOutcome × Nat :=
  match registryBuilderFactory with
  | none => (.halt, 0)
  | some fetch =>
    match BuildRegistry parse (fetch ()) with
    | .error e => (.fetchError (.cannotFetchRelayConfig e), 1)
    | .ok reg => (.ready { registry := reg }, 1)

/-- Modelled from the spec: the canonical URLs of all endpoint strings a
provider response carries (defaults plus every proposer's endpoints),
with parse failures skipped; when every string parses this is the full
multiset of input canonical URLs, whose distinct count the spec compares
against the size of `AllRelays()`. -/
def InputCanonicals (parse : EntryParser) (resp : ProviderResponse) : List String :=
  (resp.defaultRelays ++ (resp.proposerRelays.map Prod.snd).flatten).filterMap
    (fun v => match parse v with
      | .ok e => some e.canonical
      | .error _ => none)

/-- A concrete entry parser used to evaluate the development on sample
inputs: it rejects the string "bad" and otherwise takes the whole value
as the canonical URL, with no decoration. -/
def sampleParse : EntryParser := fun v =>
  if v = "bad" then .error "invalid relay URL"
  else .ok { canonical := v, decoration := "" }

/-- A concrete URL parser used to evaluate the development on sample
inputs: it rejects the string "bad" and otherwise keeps the raw string. -/
def sampleParseURL : UrlParser := fun v =>
  if v = "bad" then .error "invalid URL"
  else .ok { urlString := v }

/-- The provider response of the spec's worked example: proposer "0xAA"
maps to ["relayA","relayB","relayA"] (a duplicate URL) and the defaults
are ["relayC"]. -/
def sampleResponse : ProviderResponse :=
  { proposerRelays := [("0xAA", ["relayA", "relayB", "relayA"])]
    defaultRelays := ["relayC"] }

/-- The Registry the builder produces from `sampleResponse` under
`sampleParse`. -/
def sampleRegistry : Registry :=
  { proposerRelays := [("0xAA", [{ canonical := "relayA", decoration := "" },
                                 { canonical := "relayB", decoration := "" }])]
    defaultRelays := [{ canonical := "relayC", decoration := "" }] }

section CliLemmas

/-- `relayList.Contains` holds exactly when some member has the same
canonical string. -/
theorem relayList.contains_iff (r : relayList) (e : Entry) :
    r.Contains e = true ↔ ∃ x ∈ r, e.str = x.str := by
  simp [relayList.Contains, List.any_eq_true]

/-- `relayMonitorList.Contains` holds exactly when some member has the
same URL string. -/
theorem relayMonitorList.monitor_contains_iff (rm : relayMonitorList) (u : Url) :
    rm.Contains u = true ↔ ∃ x ∈ rm, u.urlString = x.urlString := by
  simp [relayMonitorList.Contains, List.any_eq_true]

/-- One `relayList.Set` call preserves canonical-string nodup-ness. -/
theorem relayList.nodup_set (parse : EntryParser) (r : relayList) (v : String)
    (h : (r.map Entry.str).Nodup) :
    (((relayList.Set parse r v).1).map Entry.str).Nodup := by
  unfold relayList.Set
  cases hp : parse v with
  | error msg => simpa using h
  | ok e =>
    simp only
    by_cases hc : r.Contains e = true
    · simp [hc, h]
    · have hne : ∀ x ∈ r, ¬(e.str = x.str) := by
        intro x hx hex
        exact hc ((relayList.contains_iff r e).mpr ⟨x, hx, hex⟩)
      simp only [Bool.not_eq_true] at hc
      simp only [hc, Bool.false_eq_true, if_false, List.map_append, List.nodup_append]
      refine ⟨h, List.nodup_singleton _, ?_⟩
      intro a ha hb
      simp only [List.map_cons, List.map_nil, List.mem_singleton] at hb
      rcases List.mem_map.mp ha with ⟨x, hx, hxa⟩
      exact hne x hx ((hxa.trans hb).symm)

/-- One `relayMonitorList.Set` call preserves URL-string nodup-ness. -/
theorem relayMonitorList.monitor_nodup_set (parse : UrlParser) (rm : relayMonitorList)
    (v : String) (h : (rm.map Url.urlString).Nodup) :
    (((relayMonitorList.Set parse rm v).1).map Url.urlString).Nodup := by
  unfold relayMonitorList.Set
  cases hp : parse v with
  | error msg => simpa using h
  | ok u =>
    simp only
    by_cases hc : rm.Contains u = true
    · simp [hc, h]
    · have hne : ∀ x ∈ rm, ¬(u.urlString = x.urlString) := by
        intro x hx hex
        exact hc ((relayMonitorList.monitor_contains_iff rm u).mpr ⟨x, hx, hex⟩)
      simp only [Bool.not_eq_true] at hc
      simp only [hc, Bool.false_eq_true, if_false, List.map_append, List.nodup_append]
      refine ⟨h, List.nodup_singleton _, ?_⟩
      intro a ha hb
      simp only [List.map_cons, List.map_nil, List.mem_singleton] at hb
      rcases List.mem_map.mp ha with ⟨x, hx, hxa⟩
      exact hne x hx ((hxa.trans hb).symm)

/-- `relayList.SetAll` preserves canonical-string nodup-ness. -/
theorem relayList.nodup_setAll (parse : EntryParser) (vs : List String) :
    ∀ r : relayList, (r.map Entry.str).Nodup →
      ((relayList.SetAll parse r vs).map Entry.str).Nodup := by
  induction vs with
  | nil => intro r h; simpa [relayList.SetAll] using h
  | cons v vs ih =>
    intro r h
    exact ih _ (relayList.nodup_set parse r v h)

/-- `relayMonitorList.SetAll` preserves URL-string nodup-ness. -/
theorem relayMonitorList.monitor_nodup_setAll (parse : UrlParser) (vs : List String) :
    ∀ rm : relayMonitorList, (rm.map Url.urlString).Nodup →
      ((relayMonitorList.SetAll parse rm vs).map Url.urlString).Nodup := by
  induction vs with
  | nil => intro rm h; simpa [relayMonitorList.SetAll] using h
  | cons v vs ih =>
    intro rm h
    exact ih _ (relayMonitorList.monitor_nodup_set parse rm v h)

end CliLemmas

section RcmLemmas

/-- `ContainsKey` holds exactly when the canonical URL is among the
set's keys. -/
theorem RelaySet.containsKey_iff (s : RelaySet) (e : Entry) :
    s.ContainsKey e = true ↔ e.canonical ∈ s.keys := by
  simp only [RelaySet.ContainsKey, RelaySet.keys, List.any_eq_true, List.mem_map,
    beq_iff_eq]

/-- The keys after an `Add`: unchanged on a canonical-URL collision,
otherwise extended by the new canonical URL. -/
theorem RelaySet.keys_Add (s : RelaySet) (e : Entry) :
    (s.Add e).keys =
      if e.canonical ∈ s.keys then s.keys else s.keys ++ [e.canonical] := by
  unfold RelaySet.Add
  by_cases hc : s.ContainsKey e = true
  · rw [if_pos hc, if_pos ((RelaySet.containsKey_iff s e).mp hc)]
  · have hm : ¬ e.canonical ∈ s.keys := fun h => hc ((RelaySet.containsKey_iff s e).mpr h)
    simp only [Bool.not_eq_true] at hc
    rw [hc, if_neg hm]
    simp [RelaySet.keys]

/-- Membership in the keys of an `Add`. -/
theorem RelaySet.mem_keys_Add (s : RelaySet) (e : Entry) (u : String) :
    u ∈ (s.Add e).keys ↔ u ∈ s.keys ∨ u = e.canonical := by
  rw [RelaySet.keys_Add]
  by_cases hm : e.canonical ∈ s.keys
  · rw [if_pos hm]
    constructor
    · exact Or.inl
    · rintro (h | h)
      · exact h
      · subst h; exact hm
  · rw [if_neg hm]; simp

/-- `Add` preserves nodup-ness of the keys. -/
theorem RelaySet.nodup_keys_Add (s : RelaySet) (e : Entry)
    (h : s.keys.Nodup) : (s.Add e).keys.Nodup := by
  rw [RelaySet.keys_Add]
  by_cases hm : e.canonical ∈ s.keys
  · rw [if_pos hm]; exact h
  · rw [if_neg hm]
    rw [List.nodup_append]
    exact ⟨h, List.nodup_singleton _, by
      intro a ha hb
      simp only [List.mem_singleton] at hb
      exact hm (hb ▸ ha)⟩

/-- Membership in the keys of a `Union`. -/
theorem RelaySet.mem_keys_Union (b a : RelaySet) (u : String) :
    u ∈ (a.Union b).keys ↔ u ∈ a.keys ∨ u ∈ b.keys := by
  induction b generalizing a with
  | nil => simp [RelaySet.Union, RelaySet.keys]
  | cons e b ih =>
    show u ∈ ((a.Add e).Union b).keys ↔ _
    rw [ih, RelaySet.mem_keys_Add]
    simp only [RelaySet.keys, List.map_cons, List.mem_cons]
    tauto

/-- `Union` preserves nodup-ness of the left operand's keys. -/
theorem RelaySet.nodup_keys_Union (b a : RelaySet)
    (h : a.keys.Nodup) : (a.Union b).keys.Nodup := by
  induction b generalizing a with
  | nil => exact h
  | cons e b ih => exact ih (a.Add e) (RelaySet.nodup_keys_Add a e h)

/-- A successful `FromStringsAux` parses every input string. -/
theorem RelaySet.fromStringsAux_parses (parse : EntryParser) (vs : List String) :
    ∀ (acc s : RelaySet), RelaySet.FromStringsAux parse acc vs = .ok s →
      ∀ v ∈ vs, ∃ e, parse v = .ok e := by
  induction vs with
  | nil => intro acc s _ v hv; cases hv
  | cons w ws ih =>
    intro acc s h v hv
    unfold RelaySet.FromStringsAux at h
    cases hp : parse w with
    | error msg => rw [hp] at h; cases h
    | ok e =>
      rw [hp] at h
      rcases List.mem_cons.mp hv with hvw | hvw
      · exact ⟨e, hvw ▸ hp⟩
      · exact ih (acc.Add e) s h v hvw

/-- Membership in the keys of a successful `FromStringsAux` result. -/
theorem RelaySet.mem_keys_fromStringsAux (parse : EntryParser) (vs : List String) :
    ∀ (acc s : RelaySet), RelaySet.FromStringsAux parse acc vs = .ok s →
      ∀ u, u ∈ s.keys ↔
        u ∈ acc.keys ∨ ∃ v ∈ vs, ∃ e, parse v = .ok e ∧ e.canonical = u := by
  induction vs with
  | nil =>
    intro acc s h u
    unfold RelaySet.FromStringsAux at h
    cases h
    simp
  | cons w ws ih =>
    intro acc s h u
    unfold RelaySet.FromStringsAux at h
    cases hp : parse w with
    | error msg => rw [hp] at h; cases h
    | ok e =>
      rw [hp] at h
      rw [ih (acc.Add e) s h u, RelaySet.mem_keys_Add]
      constructor
      · rintro ((h | h) | h)
        · exact Or.inl h
        · exact Or.inr ⟨w, by simp, e, hp, h.symm⟩
        · rcases h with ⟨v, hv, e₂, hpe, he⟩
          exact Or.inr ⟨v, by simp [hv], e₂, hpe, he⟩
      · rintro (h | h)
        · exact Or.inl (Or.inl h)
        · rcases h with ⟨v, hv, e₂, hpe, he⟩
          rcases List.mem_cons.mp hv with hvw | hvw
          · subst hvw
            rw [hp] at hpe
            cases hpe
            exact Or.inl (Or.inr he.symm)
          · exact Or.inr ⟨v, hvw, e₂, hpe, he⟩

/-- A successful `FromStringsAux` preserves nodup-ness of the keys. -/
theorem RelaySet.nodup_keys_fromStringsAux (parse : EntryParser) (vs : List String) :
    ∀ (acc s : RelaySet), RelaySet.FromStringsAux parse acc vs = .ok s →
      acc.keys.Nodup → s.keys.Nodup := by
  induction vs with
  | nil =>
    intro acc s h hacc
    unfold RelaySet.FromStringsAux at h
    cases h
    exact hacc
  | cons w ws ih =>
    intro acc s h hacc
    unfold RelaySet.FromStringsAux at h
    cases hp : parse w with
    | error msg => rw [hp] at h; cases h
    | ok e =>
      rw [hp] at h
      exact ih (acc.Add e) s h (RelaySet.nodup_keys_Add acc e hacc)

/-- Membership in the keys of a successful `FromStrings` result. -/
theorem RelaySet.mem_keys_fromStrings (parse : EntryParser) (vs : List String)
    (s : RelaySet) (h : RelaySet.FromStrings parse vs = .ok s) (u : String) :
    u ∈ s.keys ↔ ∃ v ∈ vs, ∃ e, parse v = .ok e ∧ e.canonical = u := by
  rw [RelaySet.mem_keys_fromStringsAux parse vs [] s h u]
  simp [RelaySet.keys]

/-- A successful `FromStrings` result has nodup keys. -/
theorem RelaySet.nodup_keys_fromStrings (parse : EntryParser) (vs : List String)
    (s : RelaySet) (h : RelaySet.FromStrings parse vs = .ok s) : s.keys.Nodup :=
  RelaySet.nodup_keys_fromStringsAux parse vs [] s h (by simp [RelaySet.keys])

end RcmLemmas

/-- C7: for every `relayList` (and `relayMonitorList`) state and every
input string whose parsed entry's canonical string equals that of some
entry already in the list, `Set` returns the distinct duplicate-entry
error and does not add the entry. -/
theorem cli_set_rejects_duplicate (parseE : EntryParser) (parseU : UrlParser)
    (r : relayList) (rm : relayMonitorList) (v w : String) (e : Entry) (u : Url)
    (hv : parseE v = .ok e) (hx : ∃ x ∈ r, x.str = e.str)
    (hw : parseU w = .ok u) (hy : ∃ y ∈ rm, y.urlString = u.urlString) :
    relayList.Set parseE r v = (r, some .duplicateEntry) ∧
    relayMonitorList.Set parseU rm w = (rm, some .duplicateEntry) := by
  obtain ⟨x, hxr, hxs⟩ := hx
  obtain ⟨y, hyr, hys⟩ := hy
  have hce : r.Contains e = true := (relayList.contains_iff r e).mpr ⟨x, hxr, hxs.symm⟩
  have hcu : rm.Contains u = true :=
    (relayMonitorList.monitor_contains_iff rm u).mpr ⟨y, hyr, hys.symm⟩
  constructor
  · simp [relayList.Set, hv, hce]
  · simp [relayMonitorList.Set, hw, hcu]

/-- Witness for C7: a concrete duplicate is rejected on both lists. -/
theorem cli_set_rejects_duplicate_witness :
    sampleParse "relayA" = .ok { canonical := "relayA", decoration := "" } ∧
    sampleParseURL "mon1" = .ok { urlString := "mon1" } ∧
    relayList.Set sampleParse [{ canonical := "relayA", decoration := "pubkey1" }] "relayA" =
      ([{ canonical := "relayA", decoration := "pubkey1" }], some .duplicateEntry) ∧
    relayMonitorList.Set sampleParseURL [{ urlString := "mon1" }] "mon1" =
      ([{ urlString := "mon1" }], some .duplicateEntry) := by
  refine ⟨rfl, rfl, ?_⟩
  exact cli_set_rejects_duplicate sampleParse sampleParseURL
    [{ canonical := "relayA", decoration := "pubkey1" }] [{ urlString := "mon1" }]
    "relayA" "mon1" { canonical := "relayA", decoration := "" } { urlString := "mon1" }
    rfl ⟨{ canonical := "relayA", decoration := "pubkey1" }, by simp, rfl⟩
    rfl ⟨{ urlString := "mon1" }, by simp, rfl⟩

/-- C8: every sequence of `Set` calls on an initially empty `relayList`
or `relayMonitorList` keeps the lists free of two entries with equal
canonical string, and every successful call appends its entry at the
end (so entries appear in the order of their first successful
accumulation) while a failed call leaves the list as it was. -/
theorem cli_setAll_invariant (parseE : EntryParser) (parseU : UrlParser)
    (vs ws : List String) :
    ((relayList.SetAll parseE [] vs).map Entry.str).Nodup ∧
    (∀ (r : relayList) (v : String), (relayList.Set parseE r v).1 = r ∨
      ∃ e, parseE v = .ok e ∧ (relayList.Set parseE r v).1 = r ++ [e]) ∧
    ((relayMonitorList.SetAll parseU [] ws).map Url.urlString).Nodup ∧
    (∀ (rm : relayMonitorList) (w : String), (relayMonitorList.Set parseU rm w).1 = rm ∨
      ∃ u, parseU w = .ok u ∧ (relayMonitorList.Set parseU rm w).1 = rm ++ [u]) := by
  refine ⟨relayList.nodup_setAll parseE vs [] (by simp), ?_,
    relayMonitorList.monitor_nodup_setAll parseU ws [] (by simp), ?_⟩
  · intro r v
    unfold relayList.Set
    cases hp : parseE v with
    | error msg => exact Or.inl rfl
    | ok e =>
      by_cases hc : r.Contains e = true
      · exact Or.inl (by simp [hc])
      · simp only [Bool.not_eq_true] at hc
        exact Or.inr ⟨e, rfl, by simp [hc]⟩
  · intro rm w
    unfold relayMonitorList.Set
    cases hp : parseU w with
    | error msg => exact Or.inl rfl
    | ok u =>
      by_cases hc : rm.Contains u = true
      · exact Or.inl (by simp [hc])
      · simp only [Bool.not_eq_true] at hc
        exact Or.inr ⟨u, rfl, by simp [hc]⟩

/-- C9: whenever `Set` returns an error (parse failure or duplicate) on
a `relayList` or a `relayMonitorList`, the list is left exactly
unchanged. -/
theorem cli_set_error_unchanged (parseE : EntryParser) (parseU : UrlParser)
    (r : relayList) (rm : relayMonitorList) (v w : String)
    (errE errU : SetError)
    (hv : (relayList.Set parseE r v).2 = some errE)
    (hw : (relayMonitorList.Set parseU rm w).2 = some errU) :
    (relayList.Set parseE r v).1 = r ∧ (relayMonitorList.Set parseU rm w).1 = rm := by
  constructor
  · unfold relayList.Set at hv ⊢
    cases hp : parseE v with
    | error msg => simp [hp]
    | ok e =>
      by_cases hc : r.Contains e = true
      · simp [hp, hc]
      · simp only [Bool.not_eq_true] at hc
        simp [hp, hc] at hv
  · unfold relayMonitorList.Set at hw ⊢
    cases hp : parseU w with
    | error msg => simp [hp]
    | ok u =>
      by_cases hc : rm.Contains u = true
      · simp [hp, hc]
      · simp only [Bool.not_eq_true] at hc
        simp [hp, hc] at hw

/-- Witness for C9: a parse failure on the relay list and a duplicate on
the monitor list both leave the concrete lists unchanged. -/
theorem cli_set_error_unchanged_witness :
    (relayList.Set sampleParse [{ canonical := "relayA", decoration := "" }] "bad").2 =
      some (.parseError "invalid relay URL") ∧
    (relayMonitorList.Set sampleParseURL [{ urlString := "mon1" }] "mon1").2 =
      some .duplicateEntry ∧
    (relayList.Set sampleParse [{ canonical := "relayA", decoration := "" }] "bad").1 =
      [{ canonical := "relayA", decoration := "" }] ∧
    (relayMonitorList.Set sampleParseURL [{ urlString := "mon1" }] "mon1").1 =
      [{ urlString := "mon1" }] := by
  refine ⟨by decide, by decide, ?_⟩
  exact cli_set_error_unchanged sampleParse sampleParseURL
    [{ canonical := "relayA", decoration := "" }] [{ urlString := "mon1" }]
    "bad" "mon1" (.parseError "invalid relay URL") .duplicateEntry
    (by decide) (by decide)

/-- C10: when `relayList.Set` succeeds, the resulting list `Contains`
the entry parsed from the value, and a second `Set` of the same value on
the resulting list returns the duplicate-entry error leaving the list as
it was. -/
theorem cli_set_then_duplicate (parse : EntryParser) (r : relayList) (v : String)
    (h : (relayList.Set parse r v).2 = none) :
    ∃ e, parse v = .ok e ∧
      (relayList.Set parse r v).1.Contains e = true ∧
      relayList.Set parse (relayList.Set parse r v).1 v =
        ((relayList.Set parse r v).1, some .duplicateEntry) := by
  unfold relayList.Set at h ⊢
  cases hp : parse v with
  | error msg => simp [hp] at h
  | ok e =>
    by_cases hc : r.Contains e = true
    · simp [hp, hc] at h
    · simp only [Bool.not_eq_true] at hc
      refine ⟨e, rfl, ?_, ?_⟩
      · simp only [hp, hc, Bool.false_eq_true, if_false]
        exact (relayList.contains_iff _ e).mpr ⟨e, by simp, rfl⟩
      · have hce : ((r ++ [e] : relayList)).Contains e = true :=
          (relayList.contains_iff _ e).mpr ⟨e, by simp, rfl⟩
        simp [hp, hc, hce]

/-- Witness for C10: after successfully accumulating a concrete value,
re-accumulating it is rejected as a duplicate. -/
theorem cli_set_then_duplicate_witness :
    (relayList.Set sampleParse [] "relayA").2 = none ∧
    ∃ e, sampleParse "relayA" = .ok e ∧
      (relayList.Set sampleParse [] "relayA").1.Contains e = true ∧
      relayList.Set sampleParse (relayList.Set sampleParse [] "relayA").1 "relayA" =
        ((relayList.Set sampleParse [] "relayA").1, some .duplicateEntry) :=
  ⟨by decide, cli_set_then_duplicate sampleParse [] "relayA" (by decide)⟩

/-- C1: whenever a `SyncConfig` attempt's build fails, the Configurator
keeps the installed Registry unchanged, every `RelaysForValidator` and
`AllRelays` read after the failed sync equals the read before it, and
the wrapped error is returned to the caller. -/
theorem sync_failure_preserves_registry (parse : EntryParser) (c : Configurator)
    (fetched : FetchResult) (e : BuildError)
    (h : BuildRegistry parse fetched = .error e) :
    Configurator.SyncConfig parse c fetched = (c, some (.cannotFetchRelayConfig e)) ∧
    (∀ pk, (Configurator.SyncConfig parse c fetched).1.RelaysForValidator pk =
      c.RelaysForValidator pk) ∧
    (Configurator.SyncConfig parse c fetched).1.AllRelays = c.AllRelays := by
  have hs : Configurator.SyncConfig parse c fetched =
      (c, some (.cannotFetchRelayConfig e)) := by
    unfold Configurator.SyncConfig
    rw [h]
  exact ⟨hs, fun pk => by rw [hs], by rw [hs]⟩

/-- Witness for C1: a concrete Configurator survives a failed sync with
identical reads. -/
theorem sync_failure_preserves_registry_witness :
    BuildRegistry sampleParse (.error "connection refused") =
      .error (.providerFailure "connection refused") ∧
    (Configurator.SyncConfig sampleParse
        { registry := { proposerRelays := [("0xAA", [{ canonical := "relayA", decoration := "" }])],
                        defaultRelays := [{ canonical := "relayC", decoration := "" }] } }
        (.error "connection refused") =
      ({ registry := { proposerRelays := [("0xAA", [{ canonical := "relayA", decoration := "" }])],
                       defaultRelays := [{ canonical := "relayC", decoration := "" }] } },
       some (.cannotFetchRelayConfig (.providerFailure "connection refused"))) ∧
    (∀ pk, (Configurator.SyncConfig sampleParse
        { registry := { proposerRelays := [("0xAA", [{ canonical := "relayA", decoration := "" }])],
                        defaultRelays := [{ canonical := "relayC", decoration := "" }] } }
        (.error "connection refused")).1.RelaysForValidator pk =
      Configurator.RelaysForValidator
        { registry := { proposerRelays := [("0xAA", [{ canonical := "relayA", decoration := "" }])],
                        defaultRelays := [{ canonical := "relayC", decoration := "" }] } } pk) ∧
    (Configurator.SyncConfig sampleParse
        { registry := { proposerRelays := [("0xAA", [{ canonical := "relayA", decoration := "" }])],
                        defaultRelays := [{ canonical := "relayC", decoration := "" }] } }
        (.error "connection refused")).1.AllRelays =
      Configurator.AllRelays
        { registry := { proposerRelays := [("0xAA", [{ canonical := "relayA", decoration := "" }])],
                        defaultRelays := [{ canonical := "relayC", decoration := "" }] } }) :=
  ⟨rfl, sync_failure_preserves_registry sampleParse _ _ _ rfl⟩

/-- C5: constructing with an absent (nil) registry-builder factory halts
immediately, with zero provider calls attempted, while no factory value
ever makes construction halt — the halt is a wiring-time condition
distinct from the recoverable fetch-failure path. -/
theorem newDefault_nil_factory_halts (parse : EntryParser) :
    NewDefault parse none = (.halt, 0) ∧
    (∀ fetch : Unit → FetchResult, (NewDefault parse (some fetch)).1 ≠ .halt) := by
  refine ⟨rfl, fun fetch => ?_⟩
  unfold NewDefault
  simp only
  cases hb : BuildRegistry parse (fetch ()) with
  | error e => simp
  | ok reg => simp

/-- C6: when the provider fails on the very first build, construction
returns the identity-testable fetch-failure sentinel wrapping the
underlying cause and yields no usable (ready) Configurator. -/
theorem newDefault_first_fetch_failure (parse : EntryParser) (msg : String) :
    (NewDefault parse (some (fun _ => .error msg))).1 =
      .fetchError (.cannotFetchRelayConfig (.providerFailure msg)) ∧
    SyncError.IsCannotFetchRelayConfig (.cannotFetchRelayConfig (.providerFailure msg)) =
      true ∧
    (∀ c : Configurator, (NewDefault parse (some (fun _ => .error msg))).1 ≠ .ready c) := by
  refine ⟨rfl, rfl, fun c h => ?_⟩
  cases h

/-- The Registry Builder on a successful fetch, unfolded one step. -/
theorem buildRegistry_ok_eq (parse : EntryParser) (resp : ProviderResponse) :
    BuildRegistry parse (.ok resp) =
      match RelaySet.FromStrings parse resp.defaultRelays with
      | .error msg => .error (.malformedEndpoint msg)
      | .ok defaults =>
        match BuildProposerSets parse resp.proposerRelays with
        | .error e => .error e
        | .ok proposers =>
          .ok { proposerRelays := proposers, defaultRelays := defaults } := rfl

/-- A successful `BuildProposerSets` maps each proposer key found in the
response to the relay Set built from that proposer's endpoint strings. -/
theorem buildProposerSets_find_some (parse : EntryParser)
    (m : List (String × List String)) :
    ∀ pl, BuildProposerSets parse m = .ok pl →
      ∀ pk strs, m.find? (fun p => p.1 == pk) = some (pk, strs) →
        ∃ s, RelaySet.FromStrings parse strs = .ok s ∧
          pl.find? (fun p => p.1 == pk) = some (pk, s) := by
  induction m with
  | nil => intro pl h pk strs hf; cases hf
  | cons p ps ih =>
    intro pl h pk strs hf
    unfold BuildProposerSets at h
    cases hs : RelaySet.FromStrings parse p.2 with
    | error msg => rw [hs] at h; cases h
    | ok s0 =>
      rw [hs] at h
      cases hr : BuildProposerSets parse ps with
      | error e => rw [hr] at h; cases h
      | ok rest =>
        rw [hr] at h
        cases h
        by_cases hk : (p.1 == pk) = true
        · simp only [List.find?, hk] at hf
          have hp1 : p = (pk, strs) := by
            injection hf
          subst hp1
          refine ⟨s0, hs, ?_⟩
          simp only [List.find?, hk]
        · simp only [Bool.not_eq_true] at hk
          simp only [List.find?, hk] at hf
          obtain ⟨s, hss, hfind⟩ := ih rest hr pk strs hf
          refine ⟨s, hss, ?_⟩
          simp only [List.find?, hk]
          exact hfind

/-- A proposer key absent from the response is absent from the built
proposer mapping. -/
theorem buildProposerSets_find_none (parse : EntryParser)
    (m : List (String × List String)) :
    ∀ pl, BuildProposerSets parse m = .ok pl →
      ∀ pk, m.find? (fun p => p.1 == pk) = none →
        pl.find? (fun p => p.1 == pk) = none := by
  induction m with
  | nil => intro pl h pk _; cases h; rfl
  | cons p ps ih =>
    intro pl h pk hf
    unfold BuildProposerSets at h
    cases hs : RelaySet.FromStrings parse p.2 with
    | error msg => rw [hs] at h; cases h
    | ok s0 =>
      rw [hs] at h
      cases hr : BuildProposerSets parse ps with
      | error e => rw [hr] at h; cases h
      | ok rest =>
        rw [hr] at h
        cases h
        by_cases hk : (p.1 == pk) = true
        · simp only [List.find?, hk] at hf; cases hf
        · simp only [Bool.not_eq_true] at hk
          simp only [List.find?, hk] at hf
          simp only [List.find?, hk]
          exact ih rest hr pk hf

/-- C2: for a Registry built from any provider response, every proposer
key present in the response's mapping is served exactly its
deduplicated endpoint set by `RelaysForValidator`, every absent key is
served exactly the Default Relay Set, and either way the result is a
fully built deduplicated set, never an unset one. -/
theorem relaysForValidator_matches_response (parse : EntryParser)
    (resp : ProviderResponse) (reg : Registry)
    (h : BuildRegistry parse (.ok resp) = .ok reg) (pk : String) :
    (∀ strs, resp.proposerRelays.find? (fun p => p.1 == pk) = some (pk, strs) →
      ∃ s, RelaySet.FromStrings parse strs = .ok s ∧
        Configurator.RelaysForValidator { registry := reg } pk = s ∧
        (RelaySet.keys s).Nodup) ∧
    (resp.proposerRelays.find? (fun p => p.1 == pk) = none →
      ∃ d, RelaySet.FromStrings parse resp.defaultRelays = .ok d ∧
        Configurator.RelaysForValidator { registry := reg } pk = d ∧
        (RelaySet.keys d).Nodup) := by
  rw [buildRegistry_ok_eq] at h
  cases hd : RelaySet.FromStrings parse resp.defaultRelays with
  | error msg => rw [hd] at h; cases h
  | ok defaults =>
    rw [hd] at h
    cases hp : BuildProposerSets parse resp.proposerRelays with
    | error e => rw [hp] at h; cases h
    | ok proposers =>
      rw [hp] at h
      cases h
      constructor
      · intro strs hf
        obtain ⟨s, hfs, hfind⟩ :=
          buildProposerSets_find_some parse resp.proposerRelays proposers hp pk strs hf
        refine ⟨s, hfs, ?_, RelaySet.nodup_keys_fromStrings parse strs s hfs⟩
        unfold Configurator.RelaysForValidator Registry.RelaysForValidator
        rw [hfind]
      · intro hf
        have hnone := buildProposerSets_find_none parse resp.proposerRelays proposers hp pk hf
        refine ⟨defaults, rfl, ?_,
          RelaySet.nodup_keys_fromStrings parse resp.defaultRelays defaults hd⟩
        unfold Configurator.RelaysForValidator Registry.RelaysForValidator
        rw [hnone]

/-- Witness for C2: on the spec's worked example, the known proposer
"0xAA" is served its deduplicated two-relay set and an unknown proposer
"0xBB" is served the default set. -/
theorem relaysForValidator_matches_response_witness :
    BuildRegistry sampleParse (.ok sampleResponse) = .ok sampleRegistry ∧
    Configurator.RelaysForValidator { registry := sampleRegistry } "0xAA" =
      [{ canonical := "relayA", decoration := "" },
       { canonical := "relayB", decoration := "" }] ∧
    Configurator.RelaysForValidator { registry := sampleRegistry } "0xBB" =
      [{ canonical := "relayC", decoration := "" }] := by
  refine ⟨rfl, ?_, ?_⟩
  · obtain ⟨s, hs, hv, -⟩ :=
      (relaysForValidator_matches_response sampleParse sampleResponse sampleRegistry
        rfl "0xAA").1 ["relayA", "relayB", "relayA"] rfl
    have hse : ([{ canonical := "relayA", decoration := "" },
        { canonical := "relayB", decoration := "" }] : RelaySet) = s :=
      Except.ok.inj ((rfl : RelaySet.FromStrings sampleParse ["relayA", "relayB", "relayA"] =
        .ok [{ canonical := "relayA", decoration := "" },
             { canonical := "relayB", decoration := "" }]).symm.trans hs)
    rw [hv, ← hse]
  · obtain ⟨d, hd, hv, -⟩ :=
      (relaysForValidator_matches_response sampleParse sampleResponse sampleRegistry
        rfl "0xBB").2 rfl
    have hde : ([{ canonical := "relayC", decoration := "" }] : RelaySet) = d :=
      Except.ok.inj ((rfl : RelaySet.FromStrings sampleParse ["relayC"] =
        .ok [{ canonical := "relayC", decoration := "" }]).symm.trans hd)
    rw [hv, ← hde]

/-- Membership in the keys of a fold of unions, as used by
`Registry.AllRelays`. -/
theorem mem_keys_foldl_union (pl : List (String × RelaySet)) :
    ∀ (init : RelaySet) (u : String),
      u ∈ (pl.foldl (fun acc p => acc.Union p.2) init).keys ↔
        u ∈ init.keys ∨ ∃ p ∈ pl, u ∈ RelaySet.keys (Prod.snd p) := by
  induction pl with
  | nil => intro init u; simp
  | cons p ps ih =>
    intro init u
    rw [List.foldl_cons, ih, RelaySet.mem_keys_Union]
    constructor
    · rintro ((h | h) | ⟨q, hq, hu⟩)
      · exact Or.inl h
      · exact Or.inr ⟨p, List.mem_cons_self p ps, h⟩
      · exact Or.inr ⟨q, List.mem_cons_of_mem p hq, hu⟩
    · rintro (h | ⟨q, hq, hu⟩)
      · exact Or.inl (Or.inl h)
      · rcases List.mem_cons.mp hq with rfl | hq
        · exact Or.inl (Or.inr hu)
        · exact Or.inr ⟨q, hq, hu⟩

/-- A fold of unions preserves nodup-ness of the keys. -/
theorem nodup_keys_foldl_union (pl : List (String × RelaySet)) :
    ∀ init : RelaySet, init.keys.Nodup →
      (pl.foldl (fun acc p => acc.Union p.2) init).keys.Nodup := by
  induction pl with
  | nil => intro init h; exact h
  | cons p ps ih =>
    intro init h
    exact ih (init.Union p.2) (RelaySet.nodup_keys_Union p.2 init h)

/-- The canonical URLs found across the Sets built by
`BuildProposerSets` are exactly those parsed from the response's
proposer endpoint strings. -/
theorem buildProposerSets_mem_keys (parse : EntryParser)
    (m : List (String × List String)) :
    ∀ pl, BuildProposerSets parse m = .ok pl →
      ∀ u, (∃ p ∈ pl, u ∈ RelaySet.keys (Prod.snd p)) ↔
        ∃ q ∈ m, ∃ v ∈ Prod.snd q, ∃ e, parse v = .ok e ∧ e.canonical = u := by
  induction m with
  | nil =>
    intro pl h u
    cases h
    simp
  | cons p ps ih =>
    intro pl h u
    unfold BuildProposerSets at h
    cases hs : RelaySet.FromStrings parse p.2 with
    | error msg => rw [hs] at h; cases h
    | ok s0 =>
      rw [hs] at h
      cases hr : BuildProposerSets parse ps with
      | error e => rw [hr] at h; cases h
      | ok rest =>
        rw [hr] at h
        cases h
        have hmem := RelaySet.mem_keys_fromStrings parse p.2 s0 hs u
        have hrest := ih rest hr u
        constructor
        · rintro ⟨q, hq, hu⟩
          rcases List.mem_cons.mp hq with rfl | hq
          · obtain ⟨v, hv, e, hpe, he⟩ := hmem.mp hu
            exact ⟨p, List.mem_cons_self p ps, v, hv, e, hpe, he⟩
          · obtain ⟨q₂, hq₂, v, hv, e, hpe, he⟩ := hrest.mp ⟨q, hq, hu⟩
            exact ⟨q₂, List.mem_cons_of_mem p hq₂, v, hv, e, hpe, he⟩
        · rintro ⟨q, hq, v, hv, e, hpe, he⟩
          rcases List.mem_cons.mp hq with rfl | hq
          · exact ⟨(q.1, s0), List.mem_cons_self _ rest, hmem.mpr ⟨v, hv, e, hpe, he⟩⟩
          · obtain ⟨q₂, hq₂, hu⟩ := hrest.mpr ⟨q, hq, v, hv, e, hpe, he⟩
            exact ⟨q₂, List.mem_cons_of_mem _ hq₂, hu⟩

/-- Membership in `InputCanonicals`: a canonical URL occurs exactly when
some endpoint string of the response (default or proposer) parses to an
entry with that canonical URL. -/
theorem mem_inputCanonicals (parse : EntryParser) (resp : ProviderResponse)
    (u : String) :
    u ∈ InputCanonicals parse resp ↔
      (∃ v ∈ resp.defaultRelays, ∃ e, parse v = .ok e ∧ e.canonical = u) ∨
      (∃ q ∈ resp.proposerRelays, ∃ v ∈ Prod.snd q, ∃ e,
        parse v = .ok e ∧ e.canonical = u) := by
  unfold InputCanonicals
  rw [List.mem_filterMap]
  have hf : ∀ v : String,
      ((match parse v with
        | .ok e => some e.canonical
        | .error _ => none) = some u) ↔ ∃ e, parse v = .ok e ∧ e.canonical = u := by
    intro v
    cases hp : parse v with
    | ok e => simp [hp]
    | error msg => simp [hp]
  constructor
  · rintro ⟨v, hv, hvu⟩
    obtain ⟨e, hpe, he⟩ := (hf v).mp hvu
    rcases List.mem_append.mp hv with hv | hv
    · exact Or.inl ⟨v, hv, e, hpe, he⟩
    · obtain ⟨l, hl, hvl⟩ := List.mem_flatten.mp hv
      obtain ⟨q, hq, rfl⟩ := List.mem_map.mp hl
      exact Or.inr ⟨q, hq, v, hvl, e, hpe, he⟩
  · rintro (⟨v, hv, e, hpe, he⟩ | ⟨q, hq, v, hv, e, hpe, he⟩)
    · exact ⟨v, List.mem_append.mpr (Or.inl hv), (hf v).mpr ⟨e, hpe, he⟩⟩
    · refine ⟨v, List.mem_append.mpr (Or.inr ?_), (hf v).mpr ⟨e, hpe, he⟩⟩
      exact List.mem_flatten.mpr ⟨q.2, List.mem_map.mpr ⟨q, hq, rfl⟩, hv⟩

/-- C3: for a Registry built from any provider response, `AllRelays()`
is the deduplicated union, keyed by canonical URL, of the Default Relay
Set and every proposer relay Set: its keys are free of duplicates, a
canonical URL appears among them exactly when some input endpoint string
carries it, and its size equals the number of distinct canonical URLs
across all inputs — so all endpoint strings sharing one canonical URL
contribute exactly one member. -/
theorem allRelays_deduplicated_union (parse : EntryParser)
    (resp : ProviderResponse) (reg : Registry)
    (h : BuildRegistry parse (.ok resp) = .ok reg) :
    (Registry.AllRelays reg).keys.Nodup ∧
    (∀ u, u ∈ (Registry.AllRelays reg).keys ↔ u ∈ InputCanonicals parse resp) ∧
    (Registry.AllRelays reg).length = (InputCanonicals parse resp).dedup.length := by
  rw [buildRegistry_ok_eq] at h
  cases hd : RelaySet.FromStrings parse resp.defaultRelays with
  | error msg => rw [hd] at h; cases h
  | ok defaults =>
    rw [hd] at h
    cases hp : BuildProposerSets parse resp.proposerRelays with
    | error e => rw [hp] at h; cases h
    | ok proposers =>
      rw [hp] at h
      cases h
      have hnodup : (Registry.AllRelays
          { proposerRelays := proposers, defaultRelays := defaults }).keys.Nodup :=
        nodup_keys_foldl_union proposers defaults
          (RelaySet.nodup_keys_fromStrings parse resp.defaultRelays defaults hd)
      have hmem : ∀ u, u ∈ (Registry.AllRelays
          { proposerRelays := proposers, defaultRelays := defaults }).keys ↔
          u ∈ InputCanonicals parse resp := by
        intro u
        unfold Registry.AllRelays
        rw [mem_keys_foldl_union proposers defaults u,
          RelaySet.mem_keys_fromStrings parse resp.defaultRelays defaults hd u,
          buildProposerSets_mem_keys parse resp.proposerRelays proposers hp u,
          mem_inputCanonicals parse resp u]
      refine ⟨hnodup, hmem, ?_⟩
      have hperm : (Registry.AllRelays
          { proposerRelays := proposers, defaultRelays := defaults }).keys.Perm
          (InputCanonicals parse resp).dedup := by
        rw [List.perm_ext_iff_of_nodup hnodup (List.nodup_dedup _)]
        intro u
        rw [hmem u, List.mem_dedup]
      have hlenkeys : (Registry.AllRelays
          { proposerRelays := proposers, defaultRelays := defaults }).keys.length =
          (InputCanonicals parse resp).dedup.length := hperm.length_eq
      rw [← hlenkeys]
      exact (List.length_map _ _).symm

/-- Witness for C3: on the spec's worked example (duplicate "relayA" for
proposer "0xAA", default "relayC"), `AllRelays()` has nodup keys, holds
exactly the three distinct canonical URLs, and has size 3. -/
theorem allRelays_deduplicated_union_witness :
    BuildRegistry sampleParse (.ok sampleResponse) = .ok sampleRegistry ∧
    (Registry.AllRelays sampleRegistry).keys.Nodup ∧
    (∀ u, u ∈ (Registry.AllRelays sampleRegistry).keys ↔
      u ∈ InputCanonicals sampleParse sampleResponse) ∧
    (Registry.AllRelays sampleRegistry).length =
      (InputCanonicals sampleParse sampleResponse).dedup.length :=
  ⟨rfl, allRelays_deduplicated_union sampleParse sampleResponse sampleRegistry rfl⟩

end MevBoost
